import Mathlib

/-!
Verification of the MCP server script generator core.

This development embeds, in Lean, the data model and the algorithms of the
generator pipeline:

- the canonical endpoint record and the merge/deduplication stage of
  app/api_discoverer.py (function named deduplicate endpoints there);
- the parameter extraction of the JSON analyzer, app/json_analyzer.py
  (OpenAPI 3 and Swagger 2 parameter extractors, the custom endpoint parser
  and the format detector, with Python dict and exception semantics made
  explicit);
- the FastMCP tool generator of app/mcp_server_generator.py (tool naming,
  signature assembly, URL template construction);
- the AST-based per-file deduplication of app/enhanced_analyzer.py;
- the path filter of the document/text extractor, app/pdf_analyzer.py.

Python dicts are modelled as insertion-ordered association lists, Python
exceptions as an Except monad, and Python strings as Lean strings (lists of
characters).
-/

namespace MCPGen

/-- HTTP methods, mirroring the enum HTTPMethod of app/models.py. -/
inductive HTTPMethod where
  | GET
  | POST
  | PUT
  | DELETE
  | PATCH
deriving DecidableEq, Repr

/-- String value of the method enum, as in app/models.py. -/
def HTTPMethod.value : HTTPMethod → String
  | .GET => "GET"
  | .POST => "POST"
  | .PUT => "PUT"
  | .DELETE => "DELETE"
  | .PATCH => "PATCH"

/-- Canonical parameter record: the dict value the parsers of
app/json_analyzer.py store under each parameter name (keys name, type,
source, required, description; all producers in the analyzer store strings
and a boolean under these keys). -/
structure CanonParam where
  name : String
  type : String
  source : String
  required : Bool
  description : String
deriving DecidableEq, Repr

/-- Endpoint record, mirroring APIEndpoint of app/models.py.  The
parameters dict is an insertion-ordered association list from parameter
name to its canonical record; tags is a list of strings. -/
structure APIEndpoint where
  url : String
  method : HTTPMethod
  description : Option String := none
  parameters : List (String × CanonParam) := []
  tags : List String := []
deriving DecidableEq, Repr

/-! ## The merge/deduplication stage (app/api_discoverer.py)

The function builds the string key url : method for every record (the
Python code formats the method enum into the key; the rendering of the enum
is an injective function of the method, so the key identifies the
(url, method) pair) and keeps a record only when its key has not been seen
before, preserving input order. -/

/-- Dedup key of a record: the Python f-string of url, a colon and the
method value. -/
def endpointKey (e : APIEndpoint) : String :=
  e.url ++ ":" ++ e.method.value

/-- Worker of the deduplication loop: seen is the set of keys already
encountered, records with a seen key are dropped, fresh records are kept
and their key added. -/
def dedupGo (seen : List String) : List APIEndpoint → List APIEndpoint
  | [] => []
  | e :: rest =>
    if endpointKey e ∈ seen then dedupGo seen rest
    else e :: dedupGo (endpointKey e :: seen) rest

/-- The deduplication stage of app/api_discoverer.py: first-seen record
wins per key, later duplicates dropped wholesale. -/
def deduplicateEndpoints (endpoints : List APIEndpoint) : List APIEndpoint :=
  dedupGo [] endpoints

theorem dedupGo_filter (l : List APIEndpoint) :
    ∀ (seen : List String) (k : String),
      (dedupGo seen l).filter (fun e => endpointKey e = k)
        = if k ∈ seen then []
          else (l.filter (fun e => endpointKey e = k)).take 1 := by
  induction l with
  | nil => intro seen k; simp [dedupGo]
  | cons e rest ih =>
    intro seen k
    by_cases hseen : endpointKey e ∈ seen
    · rw [dedupGo, if_pos hseen, ih]
      by_cases hk : k ∈ seen
      · simp [hk]
      · have hne : ¬ (endpointKey e = k) := fun h => hk (h ▸ hseen)
        simp [hk, List.filter_cons, hne]
    · rw [dedupGo, if_neg hseen]
      rw [List.filter_cons]
      by_cases hek : endpointKey e = k
      · subst hek
        rw [if_pos (by simp)]
        rw [ih]
        simp [hseen, List.filter_cons]
      · have hke : ¬ (k = endpointKey e) := fun h => hek h.symm
        rw [if_neg (by simp [hek])]
        rw [ih]
        by_cases hk : k ∈ seen
        · simp [hk, hke]
        · simp [hk, hke, List.filter_cons, hek]

theorem endpointKey_data (e : APIEndpoint) :
    (endpointKey e).data = e.url.data ++ ':' :: e.method.value.data := by
  simp [endpointKey, String.data_append]

/-- The dedup key determines and is determined by the (method, url) pair:
method value strings contain no colon, so the segment after the final colon
of the key recovers the method. -/
theorem endpointKey_eq_iff (e₁ e₂ : APIEndpoint) :
    endpointKey e₁ = endpointKey e₂ ↔ e₁.method = e₂.method ∧ e₁.url = e₂.url := by
  constructor
  · intro h
    have hd : e₁.url.data ++ ':' :: e₁.method.value.data
        = e₂.url.data ++ ':' :: e₂.method.value.data := by
      have := congrArg String.data h
      rwa [endpointKey_data, endpointKey_data] at this
    have hrev := congrArg List.reverse hd
    simp only [List.reverse_append, List.reverse_cons] at hrev
    cases h₁ : e₁.method <;> cases h₂ : e₂.method <;>
      simp only [HTTPMethod.value] at hrev <;>
      simp_all [String.ext_iff, List.reverse_inj, List.append_assoc]
  · rintro ⟨hm, hu⟩
    simp [endpointKey, hm, hu]

/-- Membership in the pair-keyed filter coincides with the string-keyed
filter. -/
theorem filter_pair_eq_filter_key (l : List APIEndpoint) (m : HTTPMethod) (u : String) :
    l.filter (fun e => e.method = m ∧ e.url = u)
      = l.filter (fun e => endpointKey e = endpointKey { url := u, method := m }) := by
  apply List.filter_congr
  intro e _
  simp only [decide_eq_decide]
  rw [endpointKey_eq_iff]

/-- Endpoints of the concrete first-wins scenario: two records for
GET /users with descriptions A and B. -/
def epUsersA : APIEndpoint := { url := "/users", method := .GET, description := some "A" }

def epUsersB : APIEndpoint := { url := "/users", method := .GET, description := some "B" }

/-- C1: the merge/deduplication stage, keyed on the (method, path) pair,
keeps exactly the first-seen record for each key and discards every later
record with the same key; in the concrete scenario where (GET, /users)
arrives first with description A and then with description B, the merged
output contains exactly one (GET, /users) record and its description is A. -/
theorem dedup_first_seen_wins :
    (∀ (l : List APIEndpoint) (m : HTTPMethod) (u : String),
        (deduplicateEndpoints l).filter (fun e => e.method = m ∧ e.url = u)
          = (l.filter (fun e => e.method = m ∧ e.url = u)).take 1)
    ∧ deduplicateEndpoints [epUsersA, epUsersB] = [epUsersA]
    ∧ epUsersA.description = some "A" := by
  refine ⟨?_, by decide, rfl⟩
  intro l m u
  rw [filter_pair_eq_filter_key, filter_pair_eq_filter_key,
    deduplicateEndpoints, dedupGo_filter]
  simp

theorem dedupGo_dedupGo (l : List APIEndpoint) :
    ∀ seen, dedupGo seen (dedupGo seen l) = dedupGo seen l := by
  induction l with
  | nil => intro seen; simp [dedupGo]
  | cons e rest ih =>
    intro seen
    by_cases hseen : endpointKey e ∈ seen
    · rw [dedupGo, if_pos hseen, ih]
    · rw [dedupGo, if_neg hseen, dedupGo, if_neg hseen, ih]

theorem dedupGo_append_dup (x : APIEndpoint) (l : List APIEndpoint) :
    ∀ seen, (endpointKey x ∈ seen ∨ ∃ e ∈ l, endpointKey e = endpointKey x) →
      dedupGo seen (l ++ [x]) = dedupGo seen l := by
  induction l with
  | nil =>
    intro seen h
    have hx : endpointKey x ∈ seen := by
      rcases h with h | ⟨e, he, _⟩
      · exact h
      · simp at he
    simp [dedupGo, hx]
  | cons e rest ih =>
    intro seen h
    by_cases hseen : endpointKey e ∈ seen
    · rw [List.cons_append, dedupGo, if_pos hseen, dedupGo, if_pos hseen]
      apply ih
      rcases h with h | ⟨e', he', hk⟩
      · exact Or.inl h
      · rcases List.mem_cons.mp he' with rfl | hmem
        · exact Or.inl (hk ▸ hseen)
        · exact Or.inr ⟨e', hmem, hk⟩
    · rw [List.cons_append, dedupGo, if_neg hseen, dedupGo, if_neg hseen]
      congr 1
      apply ih
      rcases h with h | ⟨e', he', hk⟩
      · exact Or.inl (List.mem_cons_of_mem _ h)
      · rcases List.mem_cons.mp he' with rfl | hmem
        · exact Or.inl (by simp [hk])
        · exact Or.inr ⟨e', hmem, hk⟩

/-- C5: the merge/deduplication stage is idempotent: merging twice is
merging once, and appending an exact duplicate of a record already in the
list does not change the merged output. -/
theorem dedup_idempotent :
    (∀ l : List APIEndpoint,
        deduplicateEndpoints (deduplicateEndpoints l) = deduplicateEndpoints l)
    ∧ ∀ (l : List APIEndpoint) (x : APIEndpoint), x ∈ l →
        deduplicateEndpoints (l ++ [x]) = deduplicateEndpoints l := by
  constructor
  · intro l
    exact dedupGo_dedupGo l []
  · intro l x hx
    exact dedupGo_append_dup x l [] (Or.inr ⟨x, hx, rfl⟩)

/-- Witness for C5 at a concrete input: duplicating the GET /users record. -/
theorem dedup_idempotent_witness :
    deduplicateEndpoints ([epUsersA] ++ [epUsersA]) = deduplicateEndpoints [epUsersA] :=
  dedup_idempotent.2 [epUsersA] epUsersA (by simp)

/-! ## Python dicts as insertion-ordered association lists

A Python dict assignment d[k] = v updates the value in place when k is
already a key (keeping the key's original position) and appends the pair at
the end otherwise; iteration yields entries in that order. -/

/-- One Python dict assignment d[k] = v. -/
def pyDictInsert {K V : Type} [DecidableEq K] : List (K × V) → K → V → List (K × V)
  | [], k, v => [(k, v)]
  | p :: rest, k, v =>
    if p.1 = k then (k, v) :: rest else p :: pyDictInsert rest k v

/-- The dict built from a list of key/value pairs by successive assignment,
as a Python dict comprehension does. -/
def pyDictOf {K V : Type} [DecidableEq K] (l : List (K × V)) : List (K × V) :=
  l.foldl (fun d kv => pyDictInsert d kv.1 kv.2) []

/-- First-match lookup on an association list (Python dict access). -/
def pyDictGet {K V : Type} [DecidableEq K] (d : List (K × V)) (k : K) : Option V :=
  (d.find? (fun p => p.1 = k)).map Prod.snd

/-- A well-formed dict has pairwise distinct keys. -/
def DistinctKeys {K V : Type} (d : List (K × V)) : Prop :=
  (d.map Prod.fst).Nodup

theorem pyDictInsert_cons_pos {K V : Type} [DecidableEq K]
    (p : K × V) (rest : List (K × V)) {k : K} (v : V) (hk : p.1 = k) :
    pyDictInsert (p :: rest) k v = (k, v) :: rest := by
  simp [pyDictInsert, hk]

theorem pyDictInsert_cons_neg {K V : Type} [DecidableEq K]
    (p : K × V) (rest : List (K × V)) {k : K} (v : V) (hk : ¬ p.1 = k) :
    pyDictInsert (p :: rest) k v = p :: pyDictInsert rest k v := by
  simp [pyDictInsert, hk]

theorem mem_pyDictInsert {K V : Type} [DecidableEq K]
    {d : List (K × V)} {k : K} {v : V} {p : K × V}
    (h : p ∈ pyDictInsert d k v) : p ∈ d ∨ p = (k, v) := by
  induction d with
  | nil => simpa [pyDictInsert] using h
  | cons q rest ih =>
    by_cases hk : q.1 = k
    · rw [pyDictInsert_cons_pos q rest v hk] at h
      rcases List.mem_cons.mp h with h | h
      · exact Or.inr h
      · exact Or.inl (List.mem_cons_of_mem _ h)
    · rw [pyDictInsert_cons_neg q rest v hk] at h
      rcases List.mem_cons.mp h with h | h
      · exact Or.inl (by simp [h])
      · rcases ih h with h' | h'
        · exact Or.inl (List.mem_cons_of_mem _ h')
        · exact Or.inr h'

theorem mem_keys_pyDictInsert {K V : Type} [DecidableEq K]
    {d : List (K × V)} {k j : K} {v : V}
    (h : j ∈ (pyDictInsert d k v).map Prod.fst) :
    j ∈ d.map Prod.fst ∨ j = k := by
  rcases List.mem_map.mp h with ⟨p, hp, rfl⟩
  rcases mem_pyDictInsert hp with h' | h'
  · exact Or.inl (List.mem_map_of_mem Prod.fst h')
  · exact Or.inr (by rw [h'])

theorem distinctKeys_pyDictInsert {K V : Type} [DecidableEq K]
    {d : List (K × V)} (hd : DistinctKeys d) (k : K) (v : V) :
    DistinctKeys (pyDictInsert d k v) := by
  induction d with
  | nil => simp [DistinctKeys, pyDictInsert]
  | cons p rest ih =>
    rcases List.nodup_cons.mp hd with ⟨hp, hrest⟩
    by_cases hk : p.1 = k
    · rw [pyDictInsert_cons_pos p rest v hk]
      exact List.nodup_cons.mpr ⟨by rw [← hk]; exact hp, hrest⟩
    · rw [pyDictInsert_cons_neg p rest v hk]
      refine List.nodup_cons.mpr ⟨?_, ih hrest⟩
      intro hmem
      rcases mem_keys_pyDictInsert hmem with h | h
      · exact hp h
      · exact hk h

theorem filter_pyDictInsert_ne {K V : Type} [DecidableEq K]
    (d : List (K × V)) (k : K) (v : V) {j : K} (hj : j ≠ k) :
    (pyDictInsert d k v).filter (fun p => p.1 = j)
      = d.filter (fun p => p.1 = j) := by
  induction d with
  | nil =>
    have : ¬ ((k, v).1 = j) := fun h => hj h.symm
    simp [pyDictInsert, List.filter_cons, this]
  | cons q rest ih =>
    by_cases hk : q.1 = k
    · rw [pyDictInsert_cons_pos q rest v hk]
      rw [List.filter_cons, List.filter_cons]
      have h₁ : ¬ ((k, v).1 = j) := fun h => hj h.symm
      have h₂ : ¬ (q.1 = j) := fun h => hj (by rw [← h, hk])
      simp [h₁, h₂]
    · rw [pyDictInsert_cons_neg q rest v hk]
      rw [List.filter_cons, List.filter_cons, ih]

theorem filter_pyDictInsert_eq {K V : Type} [DecidableEq K]
    {d : List (K × V)} (hd : DistinctKeys d) (k : K) (v : V) :
    (pyDictInsert d k v).filter (fun p => p.1 = k) = [(k, v)] := by
  induction d with
  | nil => simp [pyDictInsert, List.filter_cons]
  | cons q rest ih =>
    rcases List.nodup_cons.mp hd with ⟨hq, hrest⟩
    by_cases hk : q.1 = k
    · rw [pyDictInsert_cons_pos q rest v hk]
      rw [List.filter_cons]
      rw [if_pos (by simp)]
      have hnil : rest.filter (fun p => p.1 = k) = [] := by
        rw [List.filter_eq_nil_iff]
        intro p hp hcontra
        have hpk : p.1 = k := by simpa using hcontra
        apply hq
        rw [hk, ← hpk]
        exact List.mem_map_of_mem Prod.fst hp
      rw [hnil]
    · rw [pyDictInsert_cons_neg q rest v hk]
      rw [List.filter_cons]
      rw [if_neg (by simpa using hk)]
      exact ih hrest

theorem distinctKeys_foldl_pyDictInsert {K V : Type} [DecidableEq K]
    (l : List (K × V)) :
    ∀ d, DistinctKeys d →
      DistinctKeys (l.foldl (fun d kv => pyDictInsert d kv.1 kv.2) d) := by
  induction l with
  | nil => intro d hd; simpa
  | cons kv rest ih =>
    intro d hd
    exact ih _ (distinctKeys_pyDictInsert hd kv.1 kv.2)

theorem distinctKeys_pyDictOf {K V : Type} [DecidableEq K] (l : List (K × V)) :
    DistinctKeys (pyDictOf l) :=
  distinctKeys_foldl_pyDictInsert l [] (by simp [DistinctKeys])

/-- Core dict comprehension law: for every key, the built dict holds
exactly the last pair of the input with that key (and none when the key is
absent from the input). -/
theorem pyDictOf_filter_key {K V : Type} [DecidableEq K] (l : List (K × V)) (j : K) :
    (pyDictOf l).filter (fun p => p.1 = j)
      = ((l.filter (fun p => p.1 = j)).getLast?).toList := by
  induction l using List.reverseRecOn with
  | nil => simp [pyDictOf]
  | append_singleton init kv ih =>
    have hfold : pyDictOf (init ++ [kv]) = pyDictInsert (pyDictOf init) kv.1 kv.2 := by
      simp [pyDictOf, List.foldl_append]
    rw [hfold, List.filter_append]
    by_cases hj : kv.1 = j
    · subst hj
      rw [filter_pyDictInsert_eq (distinctKeys_pyDictOf init) kv.1 kv.2]
      have : [kv].filter (fun p => p.1 = kv.1) = [kv] := by simp
      rw [this, List.getLast?_concat]
      cases kv; simp
    · rw [filter_pyDictInsert_ne _ _ _ (fun h => hj h.symm), ih]
      have : [kv].filter (fun p => p.1 = j) = [] := by simp [hj]
      rw [this, List.append_nil]

/-! ## AST-based per-file extraction (app/enhanced_analyzer.py)

The Python analyzer collects one candidate endpoint per decorated route
handler in AST traversal order, then deduplicates within the file by the
dict comprehension keyed on the (method, url) pair and returns the dict
values.  This embeds the fields of the EnhancedEndpoint dataclass that the
deduplication consults or that distinguish handlers. -/

structure EnhancedEndpoint where
  url : String
  method : HTTPMethod
  description : String := ""
  framework : String := "unknown"
  handlerFunction : Option String := none
deriving DecidableEq, Repr

/-- Per-file deduplication step of analyze python file: the dict
comprehension keyed on (method, url) followed by taking the dict values. -/
def analyzePythonDedup (endpoints : List EnhancedEndpoint) : List EnhancedEndpoint :=
  (pyDictOf (endpoints.map (fun ep => ((ep.method, ep.url), ep)))).map Prod.snd

theorem filter_snd_of_keyed {K V : Type} (d : List (K × V)) (kf : V → K)
    [DecidableEq K]
    (hd : ∀ p ∈ d, p.1 = kf p.2) (j : K) :
    (d.map Prod.snd).filter (fun v => kf v = j)
      = (d.filter (fun p => p.1 = j)).map Prod.snd := by
  induction d with
  | nil => simp
  | cons p rest ih =>
    have hp : p.1 = kf p.2 := hd p (List.mem_cons_self p rest)
    have hrest : ∀ q ∈ rest, q.1 = kf q.2 := fun q hq => hd q (List.mem_cons_of_mem _ hq)
    rw [List.map_cons, List.filter_cons, List.filter_cons, ih hrest]
    by_cases hj : kf p.2 = j
    · simp [hj, hp.trans hj]
    · have : ¬ (p.1 = j) := fun h => hj (hp ▸ h)
      simp [hj, this]

theorem mem_foldl_pyDictInsert {K V : Type} [DecidableEq K] {p : K × V}
    (l : List (K × V)) :
    ∀ d, p ∈ l.foldl (fun d kv => pyDictInsert d kv.1 kv.2) d →
      p ∈ d ∨ p ∈ l := by
  induction l with
  | nil => intro d hd; exact Or.inl hd
  | cons kv rest ih =>
    intro d hd
    rcases ih (pyDictInsert d kv.1 kv.2) hd with h' | h'
    · rcases mem_pyDictInsert h' with h'' | h''
      · exact Or.inl h''
      · exact Or.inr (by simp [h''])
    · exact Or.inr (List.mem_cons_of_mem _ h')

theorem mem_pyDictOf {K V : Type} [DecidableEq K] {l : List (K × V)} {p : K × V}
    (h : p ∈ pyDictOf l) : p ∈ l := by
  rcases mem_foldl_pyDictInsert l [] h with h' | h'
  · simp at h'
  · exact h'

/-- Handlers of the concrete last-wins scenario: two handlers in one file
for GET /items. -/
def handlerOne : EnhancedEndpoint :=
  { url := "/items", method := .GET, handlerFunction := some "list_items_v1" }

def handlerTwo : EnhancedEndpoint :=
  { url := "/items", method := .GET, handlerFunction := some "list_items_v2" }

/-- C10: within a single Python source file, when several decorated route
handlers yield the same (method, url) pair, the AST-based extractor returns
exactly one endpoint for that pair, namely the one from the handler
encountered last in traversal order; in the concrete scenario with two
GET /items handlers, the second one is returned. -/
theorem ast_dedup_last_wins :
    (∀ (l : List EnhancedEndpoint) (m : HTTPMethod) (u : String),
        (analyzePythonDedup l).filter (fun e => e.method = m ∧ e.url = u)
          = ((l.filter (fun e => e.method = m ∧ e.url = u)).getLast?).toList)
    ∧ analyzePythonDedup [handlerOne, handlerTwo] = [handlerTwo] := by
  constructor
  · intro l m u
    have hconv : ∀ (xs : List EnhancedEndpoint),
        xs.filter (fun e => e.method = m ∧ e.url = u)
          = xs.filter (fun e => (e.method, e.url) = (m, u)) := by
      intro xs
      apply List.filter_congr
      intro e _
      simp [Prod.ext_iff]
    rw [hconv, hconv]
    set L := l.map (fun ep => ((ep.method, ep.url), ep)) with hL
    have hkeyed : ∀ p ∈ pyDictOf L, p.1 = (p.2.method, p.2.url) := by
      intro p hp
      have := mem_pyDictOf hp
      rw [hL] at this
      rcases List.mem_map.mp this with ⟨ep, _, rfl⟩
      rfl
    rw [analyzePythonDedup]
    rw [filter_snd_of_keyed (pyDictOf L) (fun e => (e.method, e.url)) hkeyed (m, u)]
    rw [pyDictOf_filter_key]
    have hfL : L.filter (fun p => p.1 = (m, u))
        = (l.filter (fun e => (e.method, e.url) = (m, u))).map
            (fun ep => ((ep.method, ep.url), ep)) := by
      rw [hL, List.filter_map]
      rfl
    rw [hfL, List.getLast?_map]
    cases (l.filter (fun e => (e.method, e.url) = (m, u))).getLast? <;> simp
  · decide

/-! ## Association list lookup lemmas -/

theorem pyDictGet_insert_self {K V : Type} [DecidableEq K]
    (d : List (K × V)) (k : K) (v : V) :
    pyDictGet (pyDictInsert d k v) k = some v := by
  induction d with
  | nil => simp [pyDictGet, pyDictInsert, List.find?]
  | cons q rest ih =>
    by_cases hk : q.1 = k
    · rw [pyDictInsert_cons_pos q rest v hk]
      simp [pyDictGet, List.find?]
    · rw [pyDictInsert_cons_neg q rest v hk]
      rw [pyDictGet] at ih ⊢
      rw [List.find?_cons_of_neg _ (by simpa using hk)]
      exact ih

theorem pyDictGet_insert_ne {K V : Type} [DecidableEq K]
    (d : List (K × V)) (k : K) (v : V) {j : K} (hj : j ≠ k) :
    pyDictGet (pyDictInsert d k v) j = pyDictGet d j := by
  induction d with
  | nil =>
    have hkj : ¬ k = j := fun h => hj h.symm
    simp [pyDictGet, pyDictInsert, List.find?_cons_of_neg, hkj]
  | cons q rest ih =>
    by_cases hk : q.1 = k
    · rw [pyDictInsert_cons_pos q rest v hk]
      rw [pyDictGet, pyDictGet]
      rw [List.find?_cons_of_neg _ (by simp; exact fun h => hj h.symm)]
      rw [List.find?_cons_of_neg _ (by simp; intro h; exact hj (by rw [← h, hk]))]
    · rw [pyDictInsert_cons_neg q rest v hk]
      by_cases hq : q.1 = j
      · rw [pyDictGet, pyDictGet]
        rw [List.find?_cons_of_pos _ (by simpa using hq),
          List.find?_cons_of_pos _ (by simpa using hq)]
      · rw [pyDictGet, pyDictGet]
        rw [List.find?_cons_of_neg _ (by simpa using hq),
          List.find?_cons_of_neg _ (by simpa using hq)]
        exact ih

theorem filter_eq_of_distinct_get {K V : Type} [DecidableEq K]
    {d : List (K × V)} {p : K} {c : V}
    (hd : DistinctKeys d) (h : pyDictGet d p = some c) :
    d.filter (fun q => q.1 = p) = [(p, c)] := by
  induction d with
  | nil => simp [pyDictGet] at h
  | cons q rest ih =>
    rcases List.nodup_cons.mp hd with ⟨hq, hrest⟩
    by_cases hqp : q.1 = p
    · have hv : q.2 = c := by
        rw [pyDictGet, List.find?_cons_of_pos _ (by simpa using hqp)] at h
        simpa using h
      have hnil : rest.filter (fun r => r.1 = p) = [] := by
        rw [List.filter_eq_nil_iff]
        intro r hr hcontra
        have hrp : r.1 = p := by simpa using hcontra
        apply hq
        rw [hqp, ← hrp]
        exact List.mem_map_of_mem Prod.fst hr
      rw [List.filter_cons, if_pos (by simpa using hqp), hnil]
      rw [show q = (p, c) from Prod.ext hqp hv]
    · rw [pyDictGet, List.find?_cons_of_neg _ (by simpa using hqp)] at h
      rw [List.filter_cons, if_neg (by simpa using hqp)]
      exact ih hrest h

/-! ## Placeholder re-derivation from the path string

The JSON analyzer re-derives brace-delimited path placeholders with the
regex findall of a brace, one or more non-brace characters and a closing
brace, scanning left to right without overlap.  The scanner below carries
an optional capture accumulator: outside a capture an opening brace starts
one; inside, characters up to the next closing brace are collected, and a
capture counts only when non-empty (the regex requires at least one
character between the braces). -/

def braceScan : Option (List Char) → List Char → List String
  | _, [] => []
  | none, c :: rest =>
    if c = '{' then braceScan (some []) rest else braceScan none rest
  | some acc, c :: rest =>
    if c = '}' then
      if acc = [] then braceScan none rest
      else String.mk acc :: braceScan none rest
    else braceScan (some (acc ++ [c])) rest

/-- Placeholders of a brace-delimited path template, in order of
appearance (with multiplicity, as findall returns them). -/
def extractBracePlaceholders (path : String) : List String :=
  braceScan none path.data

/-! ## Parameter extraction of the JSON analyzer (app/json_analyzer.py)

The OpenAPI 3 extractor processes the declared parameter objects, then
re-derives brace placeholders from the path (adding a path-sourced entry
for each placeholder whose name is not yet a key), then adds the JSON
request body properties.  The Swagger 2 extractor processes only the
declared parameter objects; it receives the path but never reads it. -/

/-- A declared parameter object of an OpenAPI 3 operation, carrying the
values the extractor reads (an absent key is none; schemaType is the
nested schema type lookup). -/
structure OpenApiParam where
  name : Option String
  schemaType : Option String
  paramIn : Option String
  required : Option Bool
  description : Option String
deriving DecidableEq, Repr

/-- The OpenAPI location-to-source mapping table with its default: the
Python dict maps query, path and header to themselves and cookie to
header, and the lookup falls back to query. -/
def openapiSourceMap (paramIn : String) : String :=
  if paramIn = "query" then "query"
  else if paramIn = "path" then "path"
  else if paramIn = "header" then "header"
  else if paramIn = "cookie" then "header"
  else "query"

/-- Canonical record stored for a declared OpenAPI parameter named n. -/
def canonOfOpenApiParam (n : String) (p : OpenApiParam) : CanonParam :=
  { name := n
  , type := p.schemaType.getD "string"
  , source := openapiSourceMap (p.paramIn.getD "query")
  , required := p.required.getD false
  , description := p.description.getD (n ++ " parameter") }

/-- A property of the operation's JSON request body schema (the schema's
required name list is passed separately). -/
structure BodyProp where
  name : String
  type : Option String
  description : Option String
deriving DecidableEq, Repr

/-- Canonical record stored for a path placeholder named n that was not
declared. -/
def pathPlaceholderParam (n : String) : CanonParam :=
  { name := n, type := "string", source := "path", required := true
  , description := n ++ " path parameter" }

/-- Loop body for one declared parameter: a parameter without a name is
skipped, otherwise its canonical record is assigned under its name. -/
def openapiDeclStep (params : List (String × CanonParam)) (p : OpenApiParam) :
    List (String × CanonParam) :=
  match p.name with
  | none => params
  | some n => pyDictInsert params n (canonOfOpenApiParam n p)

/-- Loop body for one re-derived placeholder: a path-sourced record is
assigned only when the name is not already a key. -/
def openapiPlaceholderStep (params : List (String × CanonParam)) (n : String) :
    List (String × CanonParam) :=
  if (pyDictGet params n).isSome then params
  else pyDictInsert params n (pathPlaceholderParam n)

/-- Loop body for one request body property: always assigned under the
property name with source body. -/
def openapiBodyStep (bodyRequired : List String)
    (params : List (String × CanonParam)) (bp : BodyProp) :
    List (String × CanonParam) :=
  pyDictInsert params bp.name
    { name := bp.name, type := bp.type.getD "string", source := "body"
    , required := bodyRequired.contains bp.name
    , description := bp.description.getD (bp.name ++ " body parameter") }

/-- Parameter extraction for an OpenAPI 3 operation: declared parameters,
then path placeholder re-derivation, then request body properties. -/
def extractOpenapiParameters (declared : List OpenApiParam)
    (bodyProps : List BodyProp) (bodyRequired : List String) (path : String) :
    List (String × CanonParam) :=
  let step1 := declared.foldl openapiDeclStep []
  let step2 := (extractBracePlaceholders path).foldl openapiPlaceholderStep step1
  bodyProps.foldl (openapiBodyStep bodyRequired) step2

/-- A declared parameter object of a Swagger 2.0 operation. -/
structure SwaggerParam where
  name : Option String
  type : Option String
  paramIn : Option String
  required : Option Bool
  description : Option String
deriving DecidableEq, Repr

/-- The Swagger location-to-source mapping table with its default: query,
path and header map to themselves, formData and body both map to body, and
the lookup falls back to query. -/
def swaggerSourceMap (paramIn : String) : String :=
  if paramIn = "query" then "query"
  else if paramIn = "path" then "path"
  else if paramIn = "header" then "header"
  else if paramIn = "formData" then "body"
  else if paramIn = "body" then "body"
  else "query"

/-- Parameter extraction for a Swagger 2.0 operation: only the declared
parameter objects are processed; the path argument is never consulted (no
placeholder re-derivation happens here). -/
def extractSwaggerParameters (declared : List SwaggerParam) (path : String) :
    List (String × CanonParam) :=
  declared.foldl (fun params p =>
    match p.name with
    | none => params
    | some n => pyDictInsert params n
        { name := n
        , type := p.type.getD "string"
        , source := swaggerSourceMap (p.paramIn.getD "query")
        , required := p.required.getD false
        , description := p.description.getD (n ++ " parameter") }) []

/-- Every value stored under key p (if any) is path-sourced. -/
def PathSourcedOnly (params : List (String × CanonParam)) (p : String) : Prop :=
  ∀ c, pyDictGet params p = some c → c.source = "path"

/-- Key p is present and its value is path-sourced. -/
def HasPathEntry (params : List (String × CanonParam)) (p : String) : Prop :=
  ∃ c, pyDictGet params p = some c ∧ c.source = "path"

theorem distinctKeys_foldl_step {K V A : Type} [DecidableEq K]
    (step : List (K × V) → A → List (K × V))
    (hstep : ∀ d a, DistinctKeys d → DistinctKeys (step d a)) :
    ∀ (l : List A) (d : List (K × V)), DistinctKeys d →
      DistinctKeys (l.foldl step d) := by
  intro l
  induction l with
  | nil => intro d hd; simpa
  | cons a rest ih => intro d hd; exact ih _ (hstep d a hd)

theorem pathSourcedOnly_declFold (declared : List OpenApiParam) (p : String) :
    ∀ acc, (∀ d ∈ declared, d.name = some p → d.paramIn = some "path") →
      PathSourcedOnly acc p →
      PathSourcedOnly (declared.foldl openapiDeclStep acc) p := by
  induction declared with
  | nil => intro acc _ hacc; simpa using hacc
  | cons q rest ih =>
    intro acc hdecl hacc
    rw [List.foldl_cons]
    apply ih
    · intro d hd; exact hdecl d (List.mem_cons_of_mem _ hd)
    · rw [openapiDeclStep]
      cases hname : q.name with
      | none => exact hacc
      | some n =>
        by_cases hnp : n = p
        · subst hnp
          have hin : q.paramIn = some "path" :=
            hdecl q (List.mem_cons_self q rest) hname
          intro c hc
          rw [pyDictGet_insert_self] at hc
          have hcc : c = canonOfOpenApiParam n q := by
            exact (Option.some.inj hc).symm
          rw [hcc]
          simp [canonOfOpenApiParam, hin, openapiSourceMap]
        · intro c hc
          rw [pyDictGet_insert_ne _ _ _ (fun h => hnp h.symm)] at hc
          exact hacc c hc

theorem hasPathEntry_placeholderFold_preserved (todo : List String) (p : String) :
    ∀ acc, HasPathEntry acc p →
      HasPathEntry (todo.foldl openapiPlaceholderStep acc) p := by
  induction todo with
  | nil => intro acc hacc; simpa using hacc
  | cons n rest ih =>
    intro acc hacc
    rw [List.foldl_cons]
    apply ih
    rcases hacc with ⟨c, hget, hsrc⟩
    by_cases hnp : n = p
    · subst hnp
      rw [openapiPlaceholderStep, if_pos (by rw [hget]; rfl)]
      exact ⟨c, hget, hsrc⟩
    · rw [openapiPlaceholderStep]
      by_cases hsome : (pyDictGet acc n).isSome
      · rw [if_pos hsome]; exact ⟨c, hget, hsrc⟩
      · rw [if_neg hsome]
        refine ⟨c, ?_, hsrc⟩
        rw [pyDictGet_insert_ne _ _ _ (fun h => hnp h.symm)]
        exact hget

theorem hasPathEntry_placeholderFold (todo : List String) (p : String) :
    ∀ acc, PathSourcedOnly acc p → p ∈ todo →
      HasPathEntry (todo.foldl openapiPlaceholderStep acc) p := by
  induction todo with
  | nil => intro acc _ hp; simp at hp
  | cons n rest ih =>
    intro acc hacc hp
    rw [List.foldl_cons]
    by_cases hnp : n = p
    · subst hnp
      apply hasPathEntry_placeholderFold_preserved
      rw [openapiPlaceholderStep]
      cases hsome : pyDictGet acc n with
      | some c =>
        rw [if_pos (by simp)]
        exact ⟨c, hsome, hacc c hsome⟩
      | none =>
        rw [if_neg (by simp)]
        exact ⟨pathPlaceholderParam n, pyDictGet_insert_self _ _ _, rfl⟩
    · have hp' : p ∈ rest := by
        rcases List.mem_cons.mp hp with h | h
        · exact absurd h.symm hnp
        · exact h
      apply ih _ _ hp'
      rw [openapiPlaceholderStep]
      by_cases hsome : (pyDictGet acc n).isSome
      · rw [if_pos hsome]; exact hacc
      · rw [if_neg hsome]
        intro c hc
        rw [pyDictGet_insert_ne _ _ _ (fun h => hnp h.symm)] at hc
        exact hacc c hc

theorem hasPathEntry_bodyFold (bodyProps : List BodyProp)
    (bodyRequired : List String) (p : String) :
    ∀ acc, (∀ b ∈ bodyProps, b.name ≠ p) → HasPathEntry acc p →
      HasPathEntry (bodyProps.foldl (openapiBodyStep bodyRequired) acc) p := by
  induction bodyProps with
  | nil => intro acc _ hacc; simpa using hacc
  | cons bp rest ih =>
    intro acc hb hacc
    rw [List.foldl_cons]
    apply ih
    · intro b hbmem; exact hb b (List.mem_cons_of_mem _ hbmem)
    · rcases hacc with ⟨c, hget, hsrc⟩
      refine ⟨c, ?_, hsrc⟩
      rw [openapiBodyStep,
        pyDictGet_insert_ne _ _ _ (fun h => hb bp (List.mem_cons_self bp rest) h.symm)]
      exact hget

theorem distinctKeys_extractOpenapiParameters (declared : List OpenApiParam)
    (bodyProps : List BodyProp) (bodyRequired : List String) (path : String) :
    DistinctKeys (extractOpenapiParameters declared bodyProps bodyRequired path) := by
  rw [extractOpenapiParameters]
  apply distinctKeys_foldl_step
  · intro d a hd
    exact distinctKeys_pyDictInsert hd _ _
  apply distinctKeys_foldl_step
  · intro d a hd
    rw [openapiPlaceholderStep]
    by_cases hsome : (pyDictGet d a).isSome
    · rw [if_pos hsome]; exact hd
    · rw [if_neg hsome]; exact distinctKeys_pyDictInsert hd _ _
  apply distinctKeys_foldl_step
  · intro d a hd
    rw [openapiDeclStep]
    cases a.name with
    | none => exact hd
    | some n => exact distinctKeys_pyDictInsert hd _ _
  simp [DistinctKeys]

/-- OpenAPI 3 part of the placeholder/parameter consistency claim: the
parser re-derives brace placeholders from the path, so for every
placeholder whose name is not shadowed by a declared parameter of a
non-path location nor by a request body property, the extracted
parameters hold exactly one entry under that name and it has source
path. -/
theorem openapi_placeholder_path_param
    (declared : List OpenApiParam) (bodyProps : List BodyProp)
    (bodyRequired : List String) (path p : String)
    (hp : p ∈ extractBracePlaceholders path)
    (hdecl : ∀ d ∈ declared, d.name = some p → d.paramIn = some "path")
    (hbody : ∀ b ∈ bodyProps, b.name ≠ p) :
    ∃ c : CanonParam,
      (extractOpenapiParameters declared bodyProps bodyRequired path).filter
          (fun q => q.1 = p) = [(p, c)]
      ∧ c.source = "path" := by
  have hstep1 : PathSourcedOnly (declared.foldl openapiDeclStep []) p := by
    apply pathSourcedOnly_declFold declared p [] hdecl
    intro c hc
    simp [pyDictGet] at hc
  have hstep2 : HasPathEntry
      ((extractBracePlaceholders path).foldl openapiPlaceholderStep
        (declared.foldl openapiDeclStep [])) p :=
    hasPathEntry_placeholderFold _ p _ hstep1 hp
  have hfinal : HasPathEntry
      (extractOpenapiParameters declared bodyProps bodyRequired path) p := by
    rw [extractOpenapiParameters]
    exact hasPathEntry_bodyFold bodyProps bodyRequired p _ hbody hstep2
  rcases hfinal with ⟨c, hget, hsrc⟩
  exact ⟨c, filter_eq_of_distinct_get
    (distinctKeys_extractOpenapiParameters declared bodyProps bodyRequired path)
    hget, hsrc⟩

/-- The declared cookie parameter of the C7 scenario. -/
def cookieParam : OpenApiParam :=
  { name := some "session", schemaType := none, paramIn := some "cookie"
  , required := none, description := none }

/-- C7 counterexample: a declared parameter with location cookie is
emitted with source header, not cookie. -/
theorem openapi_cookie_counterexample :
    pyDictGet (extractOpenapiParameters [cookieParam] [] [] "/x") "session"
        = some { name := "session", type := "string", source := "header"
               , required := false, description := "session parameter" }
    ∧ "header" ≠ "cookie" :=
  ⟨rfl, by decide⟩

/-- C7 (amended): in the OpenAPI 3 parser the locations query, path and
header map identically to the canonical source field, but cookie maps to
header (the parser's mapping table sends cookie to header), so a declared
cookie parameter is emitted with source header. -/
theorem openapi_cookie_maps_to_header :
    (openapiSourceMap "query" = "query" ∧ openapiSourceMap "path" = "path"
      ∧ openapiSourceMap "header" = "header"
      ∧ openapiSourceMap "cookie" = "header")
    ∧ ∀ (p : OpenApiParam) (n : String),
        p.name = some n → p.paramIn = some "cookie" →
        pyDictGet (extractOpenapiParameters [p] [] [] "/x") n
            = some (canonOfOpenApiParam n p)
        ∧ (canonOfOpenApiParam n p).source = "header" := by
  refine ⟨⟨rfl, rfl, rfl, rfl⟩, ?_⟩
  intro p n hname hcookie
  have hext : extractOpenapiParameters [p] [] [] "/x"
      = pyDictInsert [] n (canonOfOpenApiParam n p) := by
    rw [extractOpenapiParameters]
    have : extractBracePlaceholders "/x" = [] := rfl
    rw [this]
    simp [openapiDeclStep, hname]
  constructor
  · rw [hext]
    exact pyDictGet_insert_self _ _ _
  · simp [canonOfOpenApiParam, hcookie, openapiSourceMap]

/-- Witness for C7 at the concrete cookie parameter. -/
theorem openapi_cookie_maps_to_header_witness :
    pyDictGet (extractOpenapiParameters [cookieParam] [] [] "/x") "session"
        = some (canonOfOpenApiParam "session" cookieParam)
    ∧ (canonOfOpenApiParam "session" cookieParam).source = "header" :=
  openapi_cookie_maps_to_header.2 cookieParam "session" rfl rfl

/-! ## FastMCP tool generation (app/mcp_server_generator.py)

The generator derives the tool function name from the method and the url,
splits the endpoint parameters into required and optional signature groups,
and assembles the URL construction line by substituting each path-sourced
parameter's placeholder (a replace of the brace-wrapped name by itself,
hence a no-op) into the url template. -/

/-- ASCII lowercase conversion (Python str.lower on the ASCII method
values used here). -/
def lowerChar (c : Char) : Char :=
  if 'A' ≤ c ∧ c ≤ 'Z' then Char.ofNat (c.toNat + 32) else c

/-- Lowercase a string character-wise. -/
def lowerStr (s : String) : String := String.mk (s.data.map lowerChar)

/-- The separator characters the generator's replace chain turns into
underscores (slash, dash, colon, dot, question mark, ampersand, equals,
plus, at, hash, dollar, percent, caret, star, parentheses, square
brackets, pipe, backslash, semicolon, double quote, single quote, angle
brackets, comma, bang, tilde and backquote; code points are used for the
three quote-like characters). -/
def underscoreChars : List Char :=
  ['/', '-', ':', '.', '?', '&', '=', '+', '@', '#', '$', '%', '^', '*',
   '(', ')', '[', ']', '|', '\\', ';', Char.ofNat 34, Char.ofNat 39,
   '<', '>', ',', '!', '~', Char.ofNat 96]

/-- Character-wise effect of the generator's chain of replace calls on the
url: braces are deleted (the chain deletes them before the later
brace-to-underscore replacements could see them), each separator becomes
an underscore, every other character is kept.  All replacements are over
distinct single characters whose outputs (underscore or nothing) are never
a later target, so the sequential replaces equal this single pass. -/
def cleanUrlChars : List Char → List Char
  | [] => []
  | c :: rest =>
    if c = '{' ∨ c = '}' then cleanUrlChars rest
    else if c ∈ underscoreChars then '_' :: cleanUrlChars rest
    else c :: cleanUrlChars rest

/-- Collapse every run of underscores into a single underscore (the regex
substitution of one-or-more underscores by one); the flag records whether
the previous character was an underscore. -/
def collapseUnd : Bool → List Char → List Char
  | _, [] => []
  | prev, c :: rest =>
    if c = '_' then
      if prev then collapseUnd true rest else '_' :: collapseUnd true rest
    else c :: collapseUnd false rest

/-- Strip all trailing underscores (str.rstrip with an underscore). -/
def rstripUnderscore (l : List Char) : List Char :=
  (l.reverse.dropWhile (fun c => c = '_')).reverse

/-- Tool name generation: the lowercased method value, an underscore and
the cleaned url; a non-empty name starting with a digit would get the
endpoint prefix (kept from the source although the method prefix makes it
unreachable); finally underscore runs are collapsed and trailing
underscores stripped. -/
def toolNameFor (m : HTTPMethod) (url : String) : String :=
  let base : List Char := (lowerStr m.value).data ++ '_' :: cleanUrlChars url.data
  let base2 : List Char :=
    match base with
    | [] => base
    | c :: _ => if c.isDigit then ("endpoint_").data ++ base else base
  String.mk (rstripUnderscore (collapseUnd false base2))

/-- First character class of the identifier regex. -/
def isIdentStart (c : Char) : Bool :=
  ('a' ≤ c && c ≤ 'z') || ('A' ≤ c && c ≤ 'Z') || c = '_'

/-- Character class of the identifier regex after the first character. -/
def isIdentChar (c : Char) : Bool :=
  isIdentStart c || ('0' ≤ c && c ≤ '9')

/-- The identifier regex: one start character followed by identifier
characters, nothing else. -/
def isValidPythonIdent (s : String) : Bool :=
  match s.data with
  | [] => false
  | c :: rest => isIdentStart c && rest.all isIdentChar

/-- A url character the replace chain handles: an identifier character, a
brace (deleted) or a separator (turned into an underscore). -/
def handledUrlChar (c : Char) : Bool :=
  isIdentChar c || c = '{' || c = '}' || underscoreChars.contains c

/-- Python type annotation for a canonical parameter type (the generator's
type mapping table with its fallback). -/
def pythonTypeOf (t : String) : String :=
  if t = "string" then "str"
  else if t = "integer" then "int"
  else if t = "boolean" then "bool"
  else if t = "array" then "List[str]"
  else if t = "object" then "Dict[str, Any]"
  else if t = "float" then "float"
  else if t = "unknown" then "str"
  else "str"

/-- Signature fragment for a required parameter. -/
def reqSig (name : String) (c : CanonParam) : String :=
  name ++ ": " ++ pythonTypeOf c.type

/-- Signature fragment for an optional parameter. -/
def optSig (name : String) (c : CanonParam) : String :=
  name ++ ": Optional[" ++ pythonTypeOf c.type ++ "] = None"

/-- The generator's single pass over the parameters dict, appending each
signature fragment to the required or the optional group. -/
def paramSplitGo (acc : List String × List String) :
    List (String × CanonParam) → List String × List String
  | [] => acc
  | p :: rest =>
    if p.2.required then paramSplitGo (acc.1 ++ [reqSig p.1 p.2], acc.2) rest
    else paramSplitGo (acc.1, acc.2 ++ [optSig p.1 p.2]) rest

/-- The generated signature parameter list: required group, then optional
group, then the headers parameter. -/
def funcParams (ps : List (String × CanonParam)) : List String :=
  (paramSplitGo ([], []) ps).1 ++ (paramSplitGo ([], []) ps).2
    ++ ["headers: Dict[str, str] = None"]

/-- Python str.replace: scan left to right, replacing each non-overlapping
occurrence of the (non-empty) pattern. -/
def pyReplace (l pat rep : List Char) : List Char :=
  match l with
  | [] => []
  | c :: cs =>
    if h : pat ≠ [] ∧ pat.isPrefixOf (c :: cs) then
      rep ++ pyReplace ((c :: cs).drop pat.length) pat rep
    else c :: pyReplace cs pat rep
termination_by l.length
decreasing_by
  · simp only [List.length_drop, List.length_cons]
    have hpat : 0 < pat.length := List.length_pos.mpr h.1
    omega
  · simp

/-- URL template construction of the generator: for every path-sourced
parameter, the brace-wrapped name is replaced by itself in the template (a
literal no-op in the source). -/
def buildUrlTemplate (e : APIEndpoint) : String :=
  e.parameters.foldl (fun t p =>
    if p.2.source = "path" then
      String.mk (pyReplace t.data ('{' :: p.1.data ++ ['}'])
        ('{' :: p.1.data ++ ['}']))
    else t) e.url

/-- Strip all trailing slashes (str.rstrip with a slash). -/
def rstripSlash (l : List Char) : List Char :=
  (l.reverse.dropWhile (fun c => c = '/')).reverse

/-- The URL construction line of the generated tool: an f-string over the
base (the quoted production base url when given, otherwise the BASE_URL
constant) followed by the url template. -/
def urlConstructionFor (e : APIEndpoint) (productionBase : Option String) : String :=
  let urlBase : String :=
    match productionBase with
    | some b => "\"" ++ String.mk (rstripSlash b.data) ++ "\""
    | none => "BASE_URL"
  "url = f\"" ++ urlBase ++ buildUrlTemplate e ++ "\""

/-- The computed artifacts of one generated FastMCP tool: its function
name, its signature parameter list and its URL construction line (the
docstring and request call lines of the source are inert string assembly
around these and carry no further logic). -/
structure FastmcpTool where
  toolName : String
  sigParams : List String
  urlConstruction : String
deriving DecidableEq, Repr

/-- Generate the tool for one endpoint.  The function is total: the source
has no raise and no failure path. -/
def generateFastmcpTool (e : APIEndpoint) (productionBase : Option String) :
    FastmcpTool :=
  { toolName := toolNameFor e.method e.url
  , sigParams := funcParams e.parameters
  , urlConstruction := urlConstructionFor e productionBase }

/-- The generation loop over a batch of endpoints, appending one tool per
endpoint. -/
def generateEndpointTools (endpoints : List APIEndpoint)
    (productionBase : Option String) : List FastmcpTool :=
  endpoints.foldl (fun acc e => acc ++ [generateFastmcpTool e productionBase]) []

theorem mem_collapseUnd {d : Char} (l : List Char) :
    ∀ b, d ∈ collapseUnd b l → d ∈ l := by
  induction l with
  | nil => intro b h; simp [collapseUnd] at h
  | cons c rest ih =>
    intro b h
    rw [collapseUnd] at h
    by_cases hc : c = '_'
    · rw [if_pos hc] at h
      by_cases hb : b
      · subst hb
        rw [if_pos rfl] at h
        exact List.mem_cons_of_mem _ (ih true h)
      · rw [if_neg hb] at h
        rcases List.mem_cons.mp h with h' | h'
        · subst hc; simp [h']
        · exact List.mem_cons_of_mem _ (ih true h')
    · rw [if_neg hc] at h
      rcases List.mem_cons.mp h with h' | h'
      · simp [h']
      · exact List.mem_cons_of_mem _ (ih false h')

theorem mem_rstripUnderscore {d : Char} {l : List Char}
    (h : d ∈ rstripUnderscore l) : d ∈ l := by
  rw [rstripUnderscore] at h
  rw [List.mem_reverse] at h
  have := (List.dropWhile_sublist (fun c => c = '_') (l := l.reverse)).mem h
  rwa [List.mem_reverse] at this

theorem cleanUrlChars_identChar (l : List Char)
    (hl : ∀ c ∈ l, handledUrlChar c = true) :
    ∀ d ∈ cleanUrlChars l, isIdentChar d = true := by
  induction l with
  | nil => intro d h; simp [cleanUrlChars] at h
  | cons c rest ih =>
    have hrest : ∀ c ∈ rest, handledUrlChar c = true :=
      fun x hx => hl x (List.mem_cons_of_mem _ hx)
    intro d h
    rw [cleanUrlChars] at h
    by_cases hbrace : c = '{' ∨ c = '}'
    · rw [if_pos hbrace] at h
      exact ih hrest d h
    · rw [if_neg hbrace] at h
      by_cases hsep : c ∈ underscoreChars
      · rw [if_pos hsep] at h
        rcases List.mem_cons.mp h with h' | h'
        · rw [h']; decide
        · exact ih hrest d h'
      · rw [if_neg hsep] at h
        rcases List.mem_cons.mp h with h' | h'
        · subst h'
          have hc := hl d (List.mem_cons_self d rest)
          rw [handledUrlChar] at hc
          simp only [Bool.or_eq_true, decide_eq_true_eq] at hc
          rcases hc with ((hid | h1) | h2) | h3
          · exact hid
          · exact absurd (Or.inl h1) hbrace
          · exact absurd (Or.inr h2) hbrace
          · exact absurd (by simpa using h3) hsep
        · exact ih hrest d h'

theorem collapseUnd_cons_ne {c : Char} (hc : ¬ c = '_') (b : Bool) (l : List Char) :
    collapseUnd b (c :: l) = c :: collapseUnd false l := by
  simp [collapseUnd, hc]

theorem rstripUnderscore_concat_underscore (t : List Char) :
    rstripUnderscore (t ++ ['_']) = rstripUnderscore t := by
  simp [rstripUnderscore, List.reverse_append, List.dropWhile_cons]

theorem rstripUnderscore_concat_ne {x : Char} (hx : ¬ x = '_') (t : List Char) :
    rstripUnderscore (t ++ [x]) = t ++ [x] := by
  simp [rstripUnderscore, List.reverse_append, List.dropWhile_cons, hx]

theorem rstripUnderscore_cons_ne {c : Char} (hc : ¬ c = '_') (l : List Char) :
    rstripUnderscore (c :: l) = c :: rstripUnderscore l := by
  induction l using List.reverseRecOn with
  | nil => simp [rstripUnderscore, List.dropWhile_cons, hc]
  | append_singleton init x ihx =>
    by_cases hx : x = '_'
    · subst hx
      rw [show c :: (init ++ ['_']) = (c :: init) ++ ['_'] by simp,
        rstripUnderscore_concat_underscore, rstripUnderscore_concat_underscore,
        ihx]
    · rw [show c :: (init ++ [x]) = (c :: init) ++ [x] by simp,
        rstripUnderscore_concat_ne hx, rstripUnderscore_concat_ne hx]
      simp

theorem lowerStr_method (m : HTTPMethod) :
    ∃ (c : Char) (pre : List Char),
      (lowerStr m.value).data = c :: pre
      ∧ isIdentStart c = true ∧ c.isDigit = false ∧ ¬ c = '_'
      ∧ ∀ d ∈ c :: pre, isIdentChar d = true := by
  cases m <;> exact ⟨_, _, rfl, by decide, by decide, by decide, by decide⟩

/-- C3 (amended): the tool name generated for an endpoint is non-empty for
every input path (it always begins with the lowercased method name), and
whenever every character of the path is one the replace chain handles (an
identifier character, a brace or a listed separator) the name matches the
identifier pattern of one letter or underscore followed by letters, digits
and underscores.  (A path character outside that set, such as a space,
survives into the name: see the counterexample.) -/
theorem tool_name_identifier_validity (m : HTTPMethod) (url : String) :
    toolNameFor m url ≠ ""
    ∧ ((∀ c ∈ url.data, handledUrlChar c = true) →
        isValidPythonIdent (toolNameFor m url) = true) := by
  obtain ⟨c, pre, hdata, hstart, hdig, hne, hall⟩ := lowerStr_method m
  have htool : toolNameFor m url
      = String.mk (c :: rstripUnderscore
          (collapseUnd false (pre ++ '_' :: cleanUrlChars url.data))) := by
    rw [toolNameFor, hdata]
    simp only [List.cons_append]
    rw [hdig]
    simp only [Bool.false_eq_true, if_false]
    rw [collapseUnd_cons_ne hne, rstripUnderscore_cons_ne hne]
  constructor
  · rw [htool]
    intro hcontra
    have : c :: rstripUnderscore
          (collapseUnd false (pre ++ '_' :: cleanUrlChars url.data)) = [] :=
      congrArg String.data hcontra
    simp at this
  · intro hurl
    rw [htool, isValidPythonIdent]
    simp only [Bool.and_eq_true]
    refine ⟨hstart, ?_⟩
    rw [List.all_eq_true]
    intro d hd
    have hd1 := mem_collapseUnd _ false (mem_rstripUnderscore hd)
    rcases List.mem_append.mp hd1 with h | h
    · exact hall d (List.mem_cons_of_mem _ h)
    · rcases List.mem_cons.mp h with h' | h'
      · rw [h']; decide
      · exact cleanUrlChars_identChar url.data hurl d h'

/-- Witness for C3 at a concrete handled path. -/
theorem tool_name_identifier_validity_witness :
    toolNameFor HTTPMethod.GET "/users/{id}" ≠ ""
    ∧ isValidPythonIdent (toolNameFor HTTPMethod.GET "/users/{id}") = true :=
  ⟨(tool_name_identifier_validity HTTPMethod.GET "/users/{id}").1,
   (tool_name_identifier_validity HTTPMethod.GET "/users/{id}").2 (by decide)⟩

/-- C3 counterexample: a path containing a space (a character the replace
chain does not handle) produces a tool name with a space, which does not
match the identifier pattern. -/
theorem tool_name_space_counterexample :
    toolNameFor HTTPMethod.GET "/user profile" = "get_user profile"
    ∧ isValidPythonIdent "get_user profile" = false := by
  constructor
  · decide
  · decide

theorem paramSplitGo_spec (ps : List (String × CanonParam)) :
    ∀ acc, paramSplitGo acc ps
      = (acc.1 ++ (ps.filter (fun p => p.2.required)).map (fun p => reqSig p.1 p.2),
         acc.2 ++ (ps.filter (fun p => !p.2.required)).map (fun p => optSig p.1 p.2)) := by
  induction ps with
  | nil => intro acc; simp [paramSplitGo]
  | cons p rest ih =>
    intro acc
    by_cases hreq : p.2.required
    · rw [paramSplitGo, if_pos hreq, ih]
      simp [List.filter_cons, hreq]
    · rw [paramSplitGo, if_neg hreq, ih]
      simp [List.filter_cons, hreq]

/-- C4: in every generated signature the required parameters all precede
the optional ones (the trailing headers parameter, which has a default,
comes last), and within each group the discovery order of the endpoint's
parameters dict is preserved: the signature is exactly the required
fragments of the parameters in order, then the optional fragments in
order. -/
theorem signature_required_before_optional (ps : List (String × CanonParam)) :
    funcParams ps
      = (ps.filter (fun p => p.2.required)).map (fun p => reqSig p.1 p.2)
        ++ (ps.filter (fun p => !p.2.required)).map (fun p => optSig p.1 p.2)
        ++ ["headers: Dict[str, str] = None"] := by
  rw [funcParams, paramSplitGo_spec]
  simp

theorem pyReplace_self_aux (pat : List Char) :
    ∀ (n : Nat) (l : List Char), l.length ≤ n → pyReplace l pat pat = l := by
  intro n
  induction n with
  | zero =>
    intro l hl
    have hnil : l = [] := List.length_eq_zero.mp (Nat.le_zero.mp hl)
    subst hnil
    simp [pyReplace]
  | succ k ih =>
    intro l hl
    cases l with
    | nil => simp [pyReplace]
    | cons c cs =>
      rw [pyReplace]
      by_cases h : pat ≠ [] ∧ pat.isPrefixOf (c :: cs)
      · rw [dif_pos h]
        have hpre : pat <+: c :: cs := by
          have h2 := h.2
          rwa [List.isPrefixOf_iff_prefix] at h2
        obtain ⟨t, ht⟩ := hpre
        have hdrop : (c :: cs).drop pat.length = t := by
          rw [← ht, List.drop_left]
        have hlen : t.length ≤ k := by
          have hlen2 : pat.length + t.length = (c :: cs).length := by
            rw [← ht, List.length_append]
          have hpat : 0 < pat.length := List.length_pos.mpr h.1
          simp only [List.length_cons] at hlen2 hl
          omega
        rw [hdrop, ih t hlen, ht]
      · rw [dif_neg h]
        have hlen : cs.length ≤ k := by
          simp only [List.length_cons] at hl
          omega
        rw [ih cs hlen]

theorem pyReplace_self (l pat : List Char) : pyReplace l pat pat = l :=
  pyReplace_self_aux pat l.length l le_rfl

theorem buildUrlTemplate_eq (e : APIEndpoint) : buildUrlTemplate e = e.url := by
  rw [buildUrlTemplate]
  generalize e.url = t
  induction e.parameters generalizing t with
  | nil => rfl
  | cons p rest ih =>
    rw [List.foldl_cons]
    have hstep : (if p.2.source = "path" then
        String.mk (pyReplace t.data ('{' :: p.1.data ++ ['}'])
          ('{' :: p.1.data ++ ['}']))
      else t) = t := by
      by_cases hs : p.2.source = "path"
      · rw [if_pos hs, pyReplace_self]
      · rw [if_neg hs]
    rw [hstep, ih]

theorem foldl_append_singleton_map {A B : Type} (f : A → B) (l : List A) :
    ∀ acc, l.foldl (fun a e => a ++ [f e]) acc = acc ++ l.map f := by
  induction l with
  | nil => intro acc; simp
  | cons e rest ih => intro acc; simp [List.foldl_cons, ih]

/-- C6 (amended): an unresolved placeholder is not a generation-time
error.  The placeholder substitution step of the generator replaces each
brace-wrapped path parameter name by itself, so the url template always
equals the endpoint's url unchanged; a placeholder with no matching
path-sourced parameter is passed through verbatim into the generated URL
f-string (where it only fails inside the generated server when the tool is
called), generation of that endpoint completes, and the batch loop
generates one tool per endpoint regardless. -/
theorem unresolved_placeholder_passthrough (e : APIEndpoint)
    (es : List APIEndpoint) (pb : Option String) :
    buildUrlTemplate e = e.url
    ∧ (generateFastmcpTool e none).urlConstruction
        = "url = f\"BASE_URL" ++ e.url ++ "\""
    ∧ generateEndpointTools es pb
        = es.map (fun x => generateFastmcpTool x pb) := by
  refine ⟨buildUrlTemplate_eq e, ?_, ?_⟩
  · show urlConstructionFor e none = _
    rw [urlConstructionFor]
    rw [buildUrlTemplate_eq]
    have hlit : ("url = f\"" ++ "BASE_URL" : String) = "url = f\"BASE_URL" := rfl
    rw [hlit]
  · rw [generateEndpointTools, foldl_append_singleton_map]
    simp

/-- The endpoint of the C6 scenario: a path placeholder with no
path-sourced parameter to substitute. -/
def epUnresolved : APIEndpoint := { url := "/users/{id}", method := .GET }

/-- C6 counterexample: for an endpoint whose path holds the placeholder id
while its parameters hold no path-sourced entry, generation does not fail:
it returns a tool whose URL construction line still carries the unresolved
placeholder verbatim. -/
theorem generation_succeeds_on_unresolved_placeholder :
    extractBracePlaceholders epUnresolved.url = ["id"]
    ∧ epUnresolved.parameters.filter (fun p => p.2.source = "path") = []
    ∧ (generateFastmcpTool epUnresolved none).urlConstruction
        = "url = f\"BASE_URL/users/{id}\"" := by
  refine ⟨rfl, rfl, ?_⟩
  show urlConstructionFor epUnresolved none = _
  rw [urlConstructionFor, buildUrlTemplate_eq]
  rfl

/-! ## Path filter of the document/text extractor (app/pdf_analyzer.py)

A method+path regex match is accepted only when the path passes the
validity filter: it must start with a slash, have length between 2 and
200, and match none of the rejection patterns (a static-file extension
suffix, a static, assets or public prefix, or an all-whitespace string),
all case-insensitively.  The filter contains no requirement of an
API-like marker segment. -/

/-- Python whitespace class (space, tab, newline, carriage return,
vertical tab, form feed). -/
def pyIsSpace (c : Char) : Bool :=
  c = ' ' || c = Char.ofNat 9 || c = Char.ofNat 10 || c = Char.ofNat 13
    || c = Char.ofNat 11 || c = Char.ofNat 12

/-- Python str.startswith on the character lists of the two strings. -/
def strStartsWith (s pre : String) : Bool :=
  pre.data.isPrefixOf s.data

/-- Python str.endswith on the character lists of the two strings. -/
def strEndsWith (s suf : String) : Bool :=
  suf.data.isSuffixOf s.data

/-- The suffixes matched by the static-file extension rejection regex. -/
def staticFileExtensions : List String :=
  [".htm", ".html", ".css", ".js", ".png", ".jpg", ".jpeg", ".gif", ".pdf"]

/-- The prefixes matched by the static, assets and public rejection
regexes. -/
def staticPathPrefixes : List String := ["/static/", "/assets/", "/public/"]

/-- The path validity filter of the extractor (the case-insensitive
regexes are evaluated against the lowercased path). -/
def isValidApiPath (path : String) : Bool :=
  if ¬ (strStartsWith path "/" = true) then false
  else if path.length < 2 ∨ path.length > 200 then false
  else if staticFileExtensions.any (fun ext => strEndsWith (lowerStr path) ext) = true
    then false
  else if staticPathPrefixes.any (fun pre => strStartsWith (lowerStr path) pre) = true
    then false
  else if ∀ c ∈ path.data, pyIsSpace c = true then false
  else true

/-- Python str.split on the slash separator. -/
def splitSegs : List Char → List (List Char)
  | [] => [[]]
  | c :: rest =>
    let r := splitSegs rest
    if c = '/' then [] :: r
    else
      match r with
      | [] => [[c]]
      | seg :: segs => (c :: seg) :: segs

/-- Predicate written from the specification's words, for comparison with
the filter in the source: a path contains an API-like marker segment when
some slash-separated segment is api, rest, or a version segment (the
letter v followed by one or more digits), case-insensitively. -/
def specPathHasApiMarker (p : String) : Bool :=
  (splitSegs (lowerStr p).data).any (fun seg =>
    seg = "api".data || seg = "rest".data ||
      (match seg with
       | [] => false
       | c :: ds => c = 'v' && (!ds.isEmpty) && ds.all (fun d => d.isDigit)))

/-- C9 (amended): the extractor's path filter accepts exactly the paths
that start with a slash, have length between 2 and 200, end in none of the
static-file extensions, start with none of the static, assets or public
prefixes (case-insensitively), and are not all whitespace.  No API-like
marker segment is required, so marker-free paths pass the filter. -/
theorem api_path_filter_characterization (p : String) :
    isValidApiPath p = true ↔
      (strStartsWith p "/" = true ∧ 2 ≤ p.length ∧ p.length ≤ 200
        ∧ (∀ ext ∈ staticFileExtensions, strEndsWith (lowerStr p) ext = false)
        ∧ (∀ pre ∈ staticPathPrefixes, strStartsWith (lowerStr p) pre = false)
        ∧ ¬ (∀ c ∈ p.data, pyIsSpace c = true)) := by
  constructor
  · intro h
    rw [isValidApiPath] at h
    by_cases h1 : strStartsWith p "/" = true
    case neg => rw [if_pos h1] at h; exact absurd h (by simp)
    rw [if_neg (not_not_intro h1)] at h
    by_cases h2 : p.length < 2 ∨ p.length > 200
    case pos => rw [if_pos h2] at h; exact absurd h (by simp)
    rw [if_neg h2] at h
    by_cases h3 : staticFileExtensions.any (fun ext => strEndsWith (lowerStr p) ext) = true
    case pos => rw [if_pos h3] at h; exact absurd h (by simp)
    rw [if_neg h3] at h
    by_cases h4 : staticPathPrefixes.any (fun pre => strStartsWith (lowerStr p) pre) = true
    case pos => rw [if_pos h4] at h; exact absurd h (by simp)
    rw [if_neg h4] at h
    by_cases h5 : ∀ c ∈ p.data, pyIsSpace c = true
    case pos => rw [if_pos h5] at h; exact absurd h (by simp)
    refine ⟨h1, by omega, by omega, ?_, ?_, h5⟩
    · intro ext hmem
      cases hcase : strEndsWith (lowerStr p) ext
      · rfl
      · exact absurd (List.any_eq_true.mpr ⟨ext, hmem, hcase⟩) h3
    · intro pre hmem
      cases hcase : strStartsWith (lowerStr p) pre
      · rfl
      · exact absurd (List.any_eq_true.mpr ⟨pre, hmem, hcase⟩) h4
  · rintro ⟨h1, hlo, hhi, hext, hpre, hws⟩
    rw [isValidApiPath]
    rw [if_neg (not_not_intro h1)]
    rw [if_neg (by omega : ¬ (p.length < 2 ∨ p.length > 200))]
    rw [if_neg (show ¬ (staticFileExtensions.any
        (fun ext => strEndsWith (lowerStr p) ext) = true) by
      intro hc
      rcases List.any_eq_true.mp hc with ⟨ext, hmem, hends⟩
      rw [hext ext hmem] at hends
      exact Bool.false_ne_true hends)]
    rw [if_neg (show ¬ (staticPathPrefixes.any
        (fun pre => strStartsWith (lowerStr p) pre) = true) by
      intro hc
      rcases List.any_eq_true.mp hc with ⟨pre, hmem, hstarts⟩
      rw [hpre pre hmem] at hstarts
      exact Bool.false_ne_true hstarts)]
    rw [if_neg hws]

/-- Witness for C9 at a concrete accepted path. -/
theorem api_path_filter_characterization_witness :
    isValidApiPath "/api/users" = true :=
  (api_path_filter_characterization "/api/users").mpr (by decide)

/-- C9 counterexample: the path /users contains no API-like marker segment
yet passes the validity filter, so a GET /users match is accepted and
produces a record. -/
theorem api_path_marker_counterexample :
    isValidApiPath "/users" = true ∧ specPathHasApiMarker "/users" = false := by
  constructor <;> decide

/-! ## JSON format detection and the custom endpoint parser
(app/json_analyzer.py)

Parsed JSON values are modelled by an inductive type; Python attribute and
type errors are modelled in an Except monad.  Membership with the in
operator means key membership on a dict, element equality on a list and
substring containment on a string; dict get is only available on dicts and
raises AttributeError otherwise (the slip at the heart of the custom
endpoint parser: after handling a top-level list in its first branch, the
function unconditionally calls get on the same value). -/

inductive PyJson where
  | null
  | bool (b : Bool)
  | int (n : Int)
  | str (s : String)
  | arr (elems : List PyJson)
  | obj (entries : List (String × PyJson))

/-- Equality test of a Python value against a string literal (equality
against a string is false for every non-string value). -/
def PyJson.isStr (needle : String) : PyJson → Bool
  | .str t => t = needle
  | _ => false

/-- First-match key lookup in a JSON object's entries. -/
def pyObjFind : List (String × PyJson) → String → Option PyJson
  | [], _ => none
  | (k, v) :: rest, key => if k = key then some v else pyObjFind rest key

/-- Substring containment on character lists. -/
def listIsInfixOf (needle : List Char) : List Char → Bool
  | [] => needle.isEmpty
  | c :: rest => needle.isPrefixOf (c :: rest) || listIsInfixOf needle rest

/-- The Python in operator. -/
def pyIn (needle : String) : PyJson → Except String Bool
  | .obj entries => .ok ((entries.map Prod.fst).contains needle)
  | .arr elems => .ok (elems.any (PyJson.isStr needle))
  | .str s => .ok (listIsInfixOf needle.data s.data)
  | _ => .error "TypeError: argument is not iterable"

/-- Python dict get with a default: only dicts have the attribute. -/
def pyGetD (j : PyJson) (key : String) (dflt : PyJson) : Except String PyJson :=
  match j with
  | .obj entries => .ok ((pyObjFind entries key).getD dflt)
  | .arr _ => .error "AttributeError: 'list' object has no attribute 'get'"
  | _ => .error "AttributeError: object has no attribute 'get'"

/-- Python subscript with a string key. -/
def pySubscript (j : PyJson) (key : String) : Except String PyJson :=
  match j with
  | .obj entries =>
    match pyObjFind entries key with
    | some v => .ok v
    | none => .error "KeyError"
  | _ => .error "TypeError: indices must be integers"

/-- ASCII uppercase conversion. -/
def upperChar (c : Char) : Char :=
  if 'a' ≤ c ∧ c ≤ 'z' then Char.ofNat (c.toNat - 32) else c

/-- Python str.upper: only strings have the attribute. -/
def pyUpper (j : PyJson) : Except String String :=
  match j with
  | .str s => .ok (String.mk (s.data.map upperChar))
  | _ => .error "AttributeError: object has no attribute 'upper'"

/-- Python truthiness of a JSON value. -/
def pyTruthy : PyJson → Bool
  | .null => false
  | .bool b => b
  | .int n => n ≠ 0
  | .str s => !s.data.isEmpty
  | .arr l => !l.isEmpty
  | .obj l => !l.isEmpty

/-- The HTTPMethod enum constructor: ValueError (none) outside the five
values. -/
def parseHTTPMethod (s : String) : Option HTTPMethod :=
  if s = "GET" then some .GET
  else if s = "POST" then some .POST
  else if s = "PUT" then some .PUT
  else if s = "DELETE" then some .DELETE
  else if s = "PATCH" then some .PATCH
  else none

/-- Format detection of the JSON analyzer, clause by clause: OpenAPI 3,
Swagger 2.0, Postman, Insomnia, the custom endpoint keys, a top-level
array whose first element is an object carrying path, url or method keys,
and the generic fallback. -/
def detectJsonFormat (j : PyJson) : Except String String := do
  let hasOpenapi ← pyIn "openapi" j
  if hasOpenapi then
    let v ← pyGetD j "openapi" (.str "")
    match v with
    | .str s =>
      if strStartsWith s "3." then return "openapi" else pure ()
    | _ => throw "AttributeError: object has no attribute 'startswith'"
  let hasSwagger ← pyIn "swagger" j
  if hasSwagger then
    let v ← pyGetD j "swagger" .null
    if v.isStr "2.0" then return "swagger"
  let hasInfo ← pyIn "info" j
  if hasInfo then
    let hasItem ← pyIn "item" j
    if hasItem then
      let info ← pyGetD j "info" (.obj [])
      let schema ← pyGetD info "schema" .null
      if pyTruthy schema then return "postman"
  let hasResources ← pyIn "resources" j
  if hasResources then
    let res ← pySubscript j "resources"
    match res with
    | .arr _ => return "insomnia"
    | _ => pure ()
  let hasEndpoints ← pyIn "endpoints" j
  if hasEndpoints then return "custom_endpoints"
  let hasApis ← pyIn "apis" j
  if hasApis then return "custom_endpoints"
  let hasRoutes ← pyIn "routes" j
  if hasRoutes then return "custom_endpoints"
  match j with
  | .arr (first :: _) =>
    match first with
    | .obj entries =>
      let keys := entries.map Prod.fst
      if keys.contains "path" || keys.contains "url" || keys.contains "method" then
        return "custom_endpoints"
      else
        return "generic"
    | _ => return "generic"
  | _ => return "generic"

/-- The parameter dict the custom parser builds for one parameter: the
values are stored raw, exactly as the item's get calls return them. -/
structure PyJsonParam where
  name : String
  type : PyJson
  source : PyJson
  required : PyJson
  description : PyJson

/-- The custom parameter record for one name/value pair (full record from
a dict value, defaults otherwise). -/
def customParamOf (n : String) (info : PyJson) : PyJsonParam :=
  match info with
  | .obj e =>
    { name := n
    , type := (pyObjFind e "type").getD (.str "string")
    , source := (pyObjFind e "in").getD ((pyObjFind e "source").getD (.str "query"))
    , required := (pyObjFind e "required").getD (.bool false)
    , description := (pyObjFind e "description").getD (.str (n ++ " parameter")) }
  | _ =>
    { name := n, type := .str "string", source := .str "query"
    , required := .bool false, description := .str (n ++ " parameter") }

/-- Custom parameter extraction: the four alternative keys are scanned in
order and each dict-valued one contributes its entries (non-dict values
are skipped). -/
def extractCustomParameters (item : List (String × PyJson)) :
    List (String × PyJsonParam) :=
  ["parameters", "params", "args", "fields"].foldl (fun params src =>
    match pyObjFind item src with
    | some (.obj pd) =>
      pd.foldl (fun ps kv => pyDictInsert ps kv.1 (customParamOf kv.1 kv.2)) params
    | _ => params) []

/-- One endpoint record produced by the custom parser (description and
tags are stored raw, as handed to the pydantic model). -/
structure ParsedEndpoint where
  url : String
  method : HTTPMethod
  description : PyJson
  parameters : List (String × PyJsonParam)
  tags : PyJson

/-- Processing of one list entry of the custom format: non-dict entries
are skipped, an unknown method skips the entry, a non-string method or
path raises. -/
def parseCustomItem (item : PyJson) : Except String (Option ParsedEndpoint) := do
  match item with
  | .obj entries =>
    let mRaw := (pyObjFind entries "method").getD
      ((pyObjFind entries "httpMethod").getD (.str "GET"))
    let methodStr ← pyUpper mRaw
    match parseHTTPMethod methodStr with
    | none => return none
    | some m =>
      let uRaw := (pyObjFind entries "path").getD
        ((pyObjFind entries "url").getD ((pyObjFind entries "route").getD (.str "/")))
      match uRaw with
      | .str u =>
        let url := if strStartsWith u "/" then u else "/" ++ u
        let desc := (pyObjFind entries "description").getD
          ((pyObjFind entries "summary").getD ((pyObjFind entries "name").getD (.str "")))
        let params := extractCustomParameters entries
        let tagsRaw := (pyObjFind entries "tags").getD (.arr [])
        let tags := match tagsRaw with
          | .str s => PyJson.arr [.str s]
          | x => x
        return some { url := url, method := m, description := desc
                    , parameters := params, tags := tags }
      | _ => throw "AttributeError: object has no attribute 'startswith'"
  | _ => return none

/-- Python iteration over the endpoint data value (a list yields its
elements, a dict its keys, a string its characters, anything else raises). -/
def pyIterate (j : PyJson) : Except String (List PyJson) :=
  match j with
  | .arr elems => .ok elems
  | .obj entries => .ok (entries.map (fun kv => PyJson.str kv.1))
  | .str s => .ok (s.data.map (fun c => PyJson.str (String.mk [c])))
  | _ => .error "TypeError: object is not iterable"

/-- The authentication type mapping of the custom parser. -/
def customAuthType (authData : PyJson) : Except String String :=
  match authData with
  | .obj entries =>
    match (pyObjFind entries "type").getD (.str "") with
    | .str s =>
      let t := lowerStr s
      if t = "bearer" then .ok "bearer"
      else if t = "basic" then .ok "basic"
      else if t = "apikey" then .ok "api_key"
      else if t = "api_key" then .ok "api_key"
      else if t = "oauth" then .ok "oauth"
      else if t = "oauth2" then .ok "oauth"
      else .ok "bearer"
    | _ => .error "AttributeError: object has no attribute 'lower'"
  | _ => .error "AttributeError: object has no attribute 'get'"

/-- The discovery result assembled by the custom parser. -/
structure CustomParseResult where
  endpoints : List ParsedEndpoint
  baseUrl : PyJson
  authType : Option String

/-- The custom endpoint parser: select the endpoint data (the whole value
when it is a list, else the first of the endpoints, apis or routes keys),
parse each entry, then read the base url off the top-level value with dict
get — the call that raises AttributeError whenever the top-level value is
a list — and finally the optional auth block. -/
def parseCustomEndpoints (j : PyJson) : Except String CustomParseResult := do
  let endpointData : List PyJson ←
    match j with
    | .arr elems => pure elems
    | .obj entries =>
      match pyObjFind entries "endpoints" with
      | some v => pyIterate v
      | none =>
        match pyObjFind entries "apis" with
        | some v => pyIterate v
        | none =>
          match pyObjFind entries "routes" with
          | some v => pyIterate v
          | none => pure []
    | _ => pure []
  let endpoints ← endpointData.foldlM (fun acc item => do
    match ← parseCustomItem item with
    | none => pure acc
    | some ep => pure (acc ++ [ep])) []
  let hostDefault ← pyGetD j "host" (.str "https://api.example.com")
  let baseUrl ← pyGetD j "baseUrl" hostDefault
  let hasAuth ← pyIn "auth" j
  let hasAuthentication ← if hasAuth then pure true else pyIn "authentication" j
  let authType ← if hasAuth ∨ hasAuthentication then do
      let authDefault ← pyGetD j "authentication" (.obj [])
      let authData ← pyGetD j "auth" authDefault
      let t ← customAuthType authData
      pure (some t)
    else pure none
  return { endpoints := endpoints, baseUrl := baseUrl, authType := authType }

/-- The C8 failing input: a top-level array whose first (and only) element
is an object with path and method keys. -/
def c8Input : PyJson :=
  .arr [.obj [("path", .str "/users"), ("method", .str "GET")]]

/-- C8: detection classifies the top-level array as the custom endpoint
list format, but the parser then raises AttributeError on every top-level
array — after its own list branch selected the elements, it calls dict
get on the same list to read the base url — so no discovery result is
ever returned, contradicting the claim (and the function's own
list-handling intent). -/
theorem custom_list_detection_and_crash :
    detectJsonFormat c8Input = .ok "custom_endpoints"
    ∧ parseCustomEndpoints c8Input
        = .error "AttributeError: 'list' object has no attribute 'get'" :=
  ⟨rfl, rfl⟩

/-! ## Collection export parameter extraction (app/json_analyzer.py)

The Insomnia extractor re-derives brace-delimited placeholders from the
url path and the Postman extractor re-derives colon-prefixed ones; both
assign the path-sourced record unconditionally (overwriting any earlier
same-named query entry), and both then process headers (skipping empty
names and content-type or accept) which can overwrite again; the Postman
extractor finally processes the keys of a raw JSON body. -/

/-- A Python truthiness guard on an optional name (None and the empty
string are falsy). -/
def nameTruthy : Option String → Option String
  | none => none
  | some s => if s = "" then none else some s

/-- A query parameter object of an Insomnia resource, carrying the values
the extractor reads. -/
structure InsomniaParam where
  name : Option String
  disabled : Option Bool
deriving DecidableEq, Repr

/-- A header object of an Insomnia resource. -/
structure InsomniaHeader where
  name : Option String
  disabled : Option Bool
deriving DecidableEq, Repr

/-- Parameter extraction for an Insomnia request resource: query
parameters, then unconditional path placeholder re-derivation, then
headers. -/
def extractInsomniaParameters (queryParams : List InsomniaParam)
    (headers : List InsomniaHeader) (urlPath : String) :
    List (String × CanonParam) :=
  let step1 := queryParams.foldl (fun params p =>
    match nameTruthy p.name with
    | none => params
    | some n => pyDictInsert params n
        { name := n, type := "string", source := "query"
        , required := !(p.disabled.getD false)
        , description := n ++ " query parameter" }) []
  let step2 := (extractBracePlaceholders urlPath).foldl (fun params n =>
    pyDictInsert params n (pathPlaceholderParam n)) step1
  headers.foldl (fun params h =>
    match nameTruthy h.name with
    | none => params
    | some n =>
      if lowerStr n = "content-type" ∨ lowerStr n = "accept" then params
      else pyDictInsert params n
        { name := n, type := "string", source := "header"
        , required := !(h.disabled.getD false)
        , description := n ++ " header" }) step2

/-- Scanner for the regex findall of colon-prefixed placeholders: a colon
followed by a letter or underscore starts a capture that extends over
letters, digits and underscores; the state is none outside any attempt,
some of the empty list right after a colon, and some of the reversed
accumulator inside a capture. -/
def colonScan : Option (List Char) → List Char → List String
  | none, [] => []
  | some acc, [] => if acc.isEmpty then [] else [String.mk acc.reverse]
  | none, c :: rest =>
    if c = ':' then colonScan (some []) rest else colonScan none rest
  | some acc, c :: rest =>
    if acc.isEmpty then
      if isIdentStart c then colonScan (some [c]) rest
      else if c = ':' then colonScan (some []) rest
      else colonScan none rest
    else
      if isIdentChar c then colonScan (some (c :: acc)) rest
      else
        String.mk acc.reverse ::
          (if c = ':' then colonScan (some []) rest else colonScan none rest)

/-- Colon-prefixed placeholders of a collection export path, in order of
appearance. -/
def extractColonPlaceholders (urlPath : String) : List String :=
  colonScan none urlPath.data

/-- A key/value object of a Postman request (query parameter or header),
carrying the values the extractor reads. -/
structure PostmanKV where
  key : Option String
  disabled : Option Bool
  description : Option String
deriving DecidableEq, Repr

/-- Parameter extraction for a Postman request: query parameters of the
url object, then unconditional colon placeholder re-derivation, then
headers, then the keys of the parsed raw JSON body (given here as the key
list that the mode raw, parse, isinstance dict chain produced, empty when
that chain did not). -/
def extractPostmanParameters (queryParams headers : List PostmanKV)
    (bodyKeys : List String) (urlPath : String) :
    List (String × CanonParam) :=
  let step1 := queryParams.foldl (fun params p =>
    match nameTruthy p.key with
    | none => params
    | some k => pyDictInsert params k
        { name := k, type := "string", source := "query"
        , required := !(p.disabled.getD false)
        , description := p.description.getD (k ++ " query parameter") }) []
  let step2 := (extractColonPlaceholders urlPath).foldl (fun params n =>
    pyDictInsert params n (pathPlaceholderParam n)) step1
  let step3 := headers.foldl (fun params h =>
    match nameTruthy h.key with
    | none => params
    | some k =>
      if lowerStr k = "content-type" ∨ lowerStr k = "accept" then params
      else pyDictInsert params k
        { name := k, type := "string", source := "header"
        , required := !(h.disabled.getD false)
        , description := h.description.getD (k ++ " header") }) step2
  bodyKeys.foldl (fun params k =>
    pyDictInsert params k
      { name := k, type := "string", source := "body", required := true
      , description := k ++ " body parameter" }) step3

theorem nameTruthy_eq_some {o : Option String} {n : String}
    (h : nameTruthy o = some n) : o = some n := by
  cases o with
  | none => simp [nameTruthy] at h
  | some s =>
    by_cases hs : s = ""
    · simp [nameTruthy, hs] at h
    · simp only [nameTruthy, hs, if_false] at h
      rw [Option.some.injEq] at h ⊢
      exact h

theorem dget_foldl_preserved_mem {A : Type} {p : String}
    (step : List (String × CanonParam) → A → List (String × CanonParam))
    (l : List A)
    (hstep : ∀ d a, a ∈ l → pyDictGet (step d a) p = pyDictGet d p) :
    ∀ acc, pyDictGet (l.foldl step acc) p = pyDictGet acc p := by
  induction l with
  | nil => intro acc; rfl
  | cons a rest ih =>
    intro acc
    rw [List.foldl_cons]
    rw [ih (fun d b hb => hstep d b (List.mem_cons_of_mem _ hb))]
    exact hstep acc a (List.mem_cons_self a rest)

theorem dget_pathOverwriteFold (todo : List String) (p : String) :
    ∀ acc, p ∈ todo →
      pyDictGet (todo.foldl
          (fun ps n => pyDictInsert ps n (pathPlaceholderParam n)) acc) p
        = some (pathPlaceholderParam p) := by
  induction todo with
  | nil => intro acc hp; simp at hp
  | cons n rest ih =>
    intro acc hp
    rw [List.foldl_cons]
    by_cases hpr : p ∈ rest
    · exact ih _ hpr
    · have hpn : p = n := by
        rcases List.mem_cons.mp hp with h | h
        · exact h
        · exact absurd h hpr
      subst hpn
      rw [dget_foldl_preserved_mem _ rest
        (fun d a ha => pyDictGet_insert_ne d a (pathPlaceholderParam a)
          (fun hc => hpr (by rw [hc]; exact ha)))]
      exact pyDictGet_insert_self _ _ _

theorem distinctKeys_extractInsomniaParameters
    (queryParams : List InsomniaParam) (headers : List InsomniaHeader)
    (urlPath : String) :
    DistinctKeys (extractInsomniaParameters queryParams headers urlPath) := by
  rw [extractInsomniaParameters]
  apply distinctKeys_foldl_step
  · intro d a hd
    cases nameTruthy a.name with
    | none => exact hd
    | some n =>
      by_cases hcond : lowerStr n = "content-type" ∨ lowerStr n = "accept"
      · simpa [hcond] using hd
      · simpa [hcond] using distinctKeys_pyDictInsert hd n _
  apply distinctKeys_foldl_step
  · intro d a hd
    exact distinctKeys_pyDictInsert hd _ _
  apply distinctKeys_foldl_step
  · intro d a hd
    cases nameTruthy a.name with
    | none => exact hd
    | some n => exact distinctKeys_pyDictInsert hd n _
  simp [DistinctKeys]

theorem distinctKeys_extractPostmanParameters
    (queryParams headers : List PostmanKV) (bodyKeys : List String)
    (urlPath : String) :
    DistinctKeys (extractPostmanParameters queryParams headers bodyKeys urlPath) := by
  rw [extractPostmanParameters]
  apply distinctKeys_foldl_step
  · intro d a hd
    exact distinctKeys_pyDictInsert hd _ _
  apply distinctKeys_foldl_step
  · intro d a hd
    cases nameTruthy a.key with
    | none => exact hd
    | some k =>
      by_cases hcond : lowerStr k = "content-type" ∨ lowerStr k = "accept"
      · simpa [hcond] using hd
      · simpa [hcond] using distinctKeys_pyDictInsert hd k _
  apply distinctKeys_foldl_step
  · intro d a hd
    exact distinctKeys_pyDictInsert hd _ _
  apply distinctKeys_foldl_step
  · intro d a hd
    cases nameTruthy a.key with
    | none => exact hd
    | some k => exact distinctKeys_pyDictInsert hd k _
  simp [DistinctKeys]

/-- C2 (amended): placeholders are re-derived from the path string by the
OpenAPI 3 parser (brace-delimited, added only when the name is not
already a key), by the Insomnia parser (brace-delimited, overwriting) and
by the Postman parser (colon-prefixed, overwriting).  In each of these,
a placeholder whose name is not reused by a later-processed entry
(request body properties for OpenAPI 3; headers for Insomnia; headers or
raw-body keys for Postman) nor, for OpenAPI 3, declared with a non-path
location, has exactly one entry in the extracted parameters and that
entry has source path.  The Swagger 2.0 and custom JSON parsers perform
no re-derivation at all, so there parameters and path can disagree: see
the counterexample. -/
theorem placeholder_path_param_rederivation :
    (∀ (declared : List OpenApiParam) (bodyProps : List BodyProp)
        (bodyRequired : List String) (path p : String),
        p ∈ extractBracePlaceholders path →
        (∀ d ∈ declared, d.name = some p → d.paramIn = some "path") →
        (∀ b ∈ bodyProps, b.name ≠ p) →
        ∃ c : CanonParam,
          (extractOpenapiParameters declared bodyProps bodyRequired path).filter
              (fun q => q.1 = p) = [(p, c)]
          ∧ c.source = "path")
    ∧ (∀ (queryParams : List InsomniaParam) (headers : List InsomniaHeader)
        (urlPath p : String),
        p ∈ extractBracePlaceholders urlPath →
        (∀ h ∈ headers, h.name ≠ some p) →
        (extractInsomniaParameters queryParams headers urlPath).filter
            (fun q => q.1 = p) = [(p, pathPlaceholderParam p)])
    ∧ (∀ (queryParams headers : List PostmanKV) (bodyKeys : List String)
        (urlPath p : String),
        p ∈ extractColonPlaceholders urlPath →
        (∀ h ∈ headers, h.key ≠ some p) →
        p ∉ bodyKeys →
        (extractPostmanParameters queryParams headers bodyKeys urlPath).filter
            (fun q => q.1 = p) = [(p, pathPlaceholderParam p)]) := by
  refine ⟨openapi_placeholder_path_param, ?_, ?_⟩
  · intro queryParams headers urlPath p hp hhead
    have hget : pyDictGet (extractInsomniaParameters queryParams headers urlPath) p
        = some (pathPlaceholderParam p) := by
      rw [extractInsomniaParameters]
      rw [dget_foldl_preserved_mem _ headers ?hstep]
      · exact dget_pathOverwriteFold _ p _ hp
      case hstep =>
        intro d h hmem
        cases hname : nameTruthy h.name with
        | none => rfl
        | some n =>
          have hn : n ≠ p := fun hc =>
            hhead h hmem (by rw [← hc]; exact nameTruthy_eq_some hname)
          by_cases hcond : lowerStr n = "content-type" ∨ lowerStr n = "accept"
          · simp [hcond]
          · simpa [hcond] using
              pyDictGet_insert_ne d n _ (fun hc => hn hc.symm)
    exact filter_eq_of_distinct_get
      (distinctKeys_extractInsomniaParameters queryParams headers urlPath) hget
  · intro queryParams headers bodyKeys urlPath p hp hhead hbody
    have hget : pyDictGet
        (extractPostmanParameters queryParams headers bodyKeys urlPath) p
        = some (pathPlaceholderParam p) := by
      rw [extractPostmanParameters]
      rw [dget_foldl_preserved_mem _ bodyKeys
        (fun d k hk => pyDictGet_insert_ne d k _
          (fun hc => hbody (by rw [hc]; exact hk)))]
      rw [dget_foldl_preserved_mem _ headers ?hstep]
      · exact dget_pathOverwriteFold _ p _ hp
      case hstep =>
        intro d h hmem
        cases hname : nameTruthy h.key with
        | none => rfl
        | some k =>
          have hk : k ≠ p := fun hc =>
            hhead h hmem (by rw [← hc]; exact nameTruthy_eq_some hname)
          by_cases hcond : lowerStr k = "content-type" ∨ lowerStr k = "accept"
          · simp [hcond]
          · simpa [hcond] using
              pyDictGet_insert_ne d k _ (fun hc => hk hc.symm)
    exact filter_eq_of_distinct_get
      (distinctKeys_extractPostmanParameters queryParams headers bodyKeys urlPath)
      hget

/-- Witness for C2 at concrete inputs: each re-deriving parser, given its
placeholder path and no other inputs, yields exactly one path-sourced
entry for the placeholder. -/
theorem placeholder_path_param_rederivation_witness :
    (∃ c : CanonParam,
        (extractOpenapiParameters [] [] [] "/users/{id}").filter
            (fun q => q.1 = "id") = [("id", c)]
        ∧ c.source = "path")
    ∧ (extractInsomniaParameters [] [] "/users/{id}").filter
        (fun q => q.1 = "id") = [("id", pathPlaceholderParam "id")]
    ∧ (extractPostmanParameters [] [] [] "/users/:id").filter
        (fun q => q.1 = "id") = [("id", pathPlaceholderParam "id")] :=
  ⟨placeholder_path_param_rederivation.1 [] [] [] "/users/{id}" "id"
      (by decide) (by simp) (by simp),
   placeholder_path_param_rederivation.2.1 [] [] "/users/{id}" "id"
      (by decide) (by simp),
   placeholder_path_param_rederivation.2.2 [] [] [] "/users/:id" "id"
      (by decide) (by simp) (by simp)⟩

/-- C2 counterexample: the Swagger 2.0 extractor and the custom JSON
extractor, each given a path carrying the placeholder id and no declared
parameters, emit an empty parameters map, so the placeholder has no
path-sourced entry there even though brace re-derivation finds it in the
path — the claim fails for these two parsers. -/
theorem no_placeholder_rederivation_swagger_custom :
    extractSwaggerParameters [] "/users/{id}" = []
    ∧ extractBracePlaceholders "/users/{id}" = ["id"]
    ∧ extractCustomParameters
        [("path", .str "/users/{id}"), ("method", .str "GET")] = [] :=
  ⟨rfl, rfl, rfl⟩

end MCPGen
